import Mathlib

/-!
Verification of the `ColBasedChunk` column accumulator of the paratext
col-based CSV parser (`src/colbased_chunk.hpp`), shallowly embedded in Lean.

The chunk owns a numeric store (`number_data_`), a categorical code store
(`cat_data_`), and a string dictionary (`cat_ids_` / `cat_keys_`).  The two
stores are `widening_vector_dynamic` instances; that header is not among the
examined sources, so the vector is modelled from the spec as an append-only
lossless sequence of exact rational values (spec section 4.1: every appended
value is representable without precision loss in the active type, and the
widest numeric candidate covers the whole numeric domain).
-/

namespace ParaText

/-- Modelled from the spec: the `Semantics` enumeration comes from
`parse_params.hpp`, which is not among the examined sources; the source of
`get_semantics` uses exactly the two enumerators `NUMERIC` and `STRINGISH`. -/
inductive Semantics where
  | NUMERIC
  | STRINGISH
deriving DecidableEq

/-- Modelled from the spec: type identifiers (`std::type_index` values in the
source) that can appear on the `get_type_index` / `get_common_type_index`
interface: the numeric candidate ladder of `number_data_`
(`int8_t, int16_t, int32_t, int64_t, float`) and `std::string`. -/
inductive TypeId where
  | int8
  | int16
  | int32
  | int64
  | float32
  | string
deriving DecidableEq

/-- Errors surfaced by the chunk: `InvalidState` models the
`std::logic_error("expected numeric data")` thrown by `insert_numeric`;
`OutOfRange` models (from the spec, section 4.1, `widening_vector.hpp` not
being among the examined sources) the failure of a typed `get` at an index
at or beyond the element count. -/
inductive PErr where
  | InvalidState
  | OutOfRange
deriving DecidableEq

/-- Modelled from the C++ standard library: `std::to_string(float v)` formats
`v` as `%f`, fixed-point with six fractional digits.  On the exact rational
model of numeric values: round the magnitude `num/den` to the nearest
multiple of 10⁻⁶ (the scaled value `(2 * num * 10^6 + den) / (2 * den)` in
integer division is `⌊|q| * 10^6 + 1/2⌋`) and print sign, integer part, a
dot, and six fractional digits. -/
def to_string_float (q : ℚ) : String :=
  let n : ℕ := (q.num.natAbs * 1000000 * 2 + q.den) / (2 * q.den)
  let fps : String := Nat.repr (n % 1000000)
  (if q.num < 0 then "-" else "") ++ Nat.repr (n / 1000000) ++ "." ++
    String.mk (List.replicate (6 - fps.length) '0') ++ fps

/-- Modelled from the C++ standard library: `std::to_string(long v)` is the
plain decimal rendering of the integer. -/
def to_string_int (z : ℤ) : String := Int.repr z

/-- The state of `ParaText::ColBasedChunk`: the column name, the numeric
store `number_data_`, the categorical code store `cat_data_`, the
string-to-code dictionary `cat_ids_` (association list; the source uses an
`std::unordered_map`, of which only lookup and insert-if-absent are used),
and the ordered decode list `cat_keys_`.  The two widening vectors are
modelled from the spec as lossless sequences of exact values. -/
structure ColBasedChunk where
  column_name : String := ""
  number_data : List ℚ := []
  cat_data : List ℕ := []
  cat_ids : List (String × ℕ) := []
  cat_keys : List String := []
deriving DecidableEq

/-- `cat_ids_.find(key)`: first binding of `key` in the association list. -/
def findId (key : String) : List (String × ℕ) → Option ℕ
  | [] => none
  | p :: rest => if key = p.1 then some p.2 else findId key rest

namespace ColBasedChunk

/-- A freshly constructed chunk (`ColBasedChunk()`): everything empty. -/
def empty : ColBasedChunk := {}

/-- `get_string_id(key)`: return the code of `key` if present, else assign
the next code `cat_ids_.size()`, record the binding and append `key` to
`cat_keys_`.  Returns the code together with the updated state. -/
def get_string_id (st : ColBasedChunk) (key : String) : ℕ × ColBasedChunk :=
  match findId key st.cat_ids with
  | some id => (id, st)
  | none =>
      (st.cat_ids.length,
        { st with
          cat_ids := st.cat_ids ++ [(key, st.cat_ids.length)],
          cat_keys := st.cat_keys ++ [key] })

/-- The recurring statement `cat_data_.push_back(get_string_id(key))`:
intern `key` and append the resulting code to the categorical store. -/
def push_cat (st : ColBasedChunk) (key : String) : ColBasedChunk :=
  let r := st.get_string_id key
  { r.2 with cat_data := r.2.cat_data ++ [r.1] }

/-- `convert_to_string()`: if the numeric store is non-empty, render every
stored value with `std::to_string` after reading it back as `float`
(`to_string_float` here), intern each text and append its code to the
categorical store in order, then clear (and shrink) the numeric store. -/
def convert_to_string (st : ColBasedChunk) : ColBasedChunk :=
  if 0 < st.number_data.length then
    { (st.number_data.map to_string_float).foldl push_cat st with number_data := [] }
  else st

/-- `process_categorical(begin, end)` on the text `s`. -/
def process_categorical (st : ColBasedChunk) (s : String) : ColBasedChunk :=
  if 0 < st.number_data.length then
    if s = "" then { st with number_data := st.number_data ++ [(0 : ℚ)] }
    else (st.convert_to_string).push_cat s
  else st.push_cat s

/-- `process_float(val)`. -/
def process_float (st : ColBasedChunk) (v : ℚ) : ColBasedChunk :=
  if 0 < st.cat_data.length then st.process_categorical (to_string_float v)
  else { st with number_data := st.number_data ++ [v] }

/-- `process_integer(val)`. -/
def process_integer (st : ColBasedChunk) (v : ℤ) : ColBasedChunk :=
  if 0 < st.cat_data.length then st.process_categorical (to_string_int v)
  else { st with number_data := st.number_data ++ [(v : ℚ)] }

/-- `get_semantics()`. -/
def get_semantics (st : ColBasedChunk) : Semantics :=
  if 0 < st.cat_data.length then .STRINGISH else .NUMERIC

/-- `size()`. -/
def size (st : ColBasedChunk) : ℕ :=
  if 0 < st.cat_data.length then st.cat_data.length else st.number_data.length

/-- `clear()`: resets both stores and the dictionary (the column name is
untouched by the source). -/
def clear (st : ColBasedChunk) : ColBasedChunk :=
  { st with number_data := [], cat_data := [], cat_ids := [], cat_keys := [] }

/-- `add_cat_data(data)`: intern and append directly, with no check of the
numeric store. -/
def add_cat_data (st : ColBasedChunk) (s : String) : ColBasedChunk :=
  st.push_cat s

/-- `get_cat_keys()`. -/
def get_cat_keys (st : ColBasedChunk) : List String := st.cat_keys

/-- Modelled from the spec: whether a value is exactly representable by a
signed integer candidate with the inclusive range `lo..hi` (section 4.1:
the active type must hold every value without precision loss). -/
def fitsInt (lo hi : ℤ) (q : ℚ) : Bool :=
  q.den == 1 && decide (lo ≤ q.num) && decide (q.num ≤ hi)

/-- Modelled from the spec: the active type of the numeric widening vector
(`widening_vector.hpp` is not among the examined sources) is the narrowest
candidate of the ladder `int8 → int16 → int32 → int64 → float` able to
represent every appended value exactly; the float candidate covers the whole
numeric domain in this exact-value model. -/
def numericTypeOf (vs : List ℚ) : TypeId :=
  if vs.all (fitsInt (-128) 127) then .int8
  else if vs.all (fitsInt (-32768) 32767) then .int16
  else if vs.all (fitsInt (-2147483648) 2147483647) then .int32
  else if vs.all (fitsInt (-9223372036854775808) 9223372036854775807) then .int64
  else .float32

/-- `get_type_index()`. -/
def get_type_index (st : ColBasedChunk) : TypeId :=
  if 0 < st.cat_data.length then .string else numericTypeOf st.number_data

/-- Position of a type identifier in the widening ladder. -/
def rank : TypeId → ℕ
  | .int8 => 0
  | .int16 => 1
  | .int32 => 2
  | .int64 => 3
  | .float32 => 4
  | .string => 5

/-- Modelled from the spec: the identifier-level common-type resolution
(section 4.1): any side being `string` yields `string`, a numeric pair
yields the wider candidate of the two. -/
def common_type_identifier (a b : TypeId) : TypeId :=
  if a = .string ∨ b = .string then .string
  else if rank a ≤ rank b then b else a

/-- `get_common_type_index(other)`: `string` when the chunk is categorical
or `other` is `string`, else the common numeric type of the numeric store's
active type and `other`. -/
def get_common_type_index (st : ColBasedChunk) (other : TypeId) : TypeId :=
  if 0 < st.cat_data.length ∨ other = .string then .string
  else common_type_identifier (numericTypeOf st.number_data) other

/-- `insert_numeric(oit)`: throws `std::logic_error` (`InvalidState`) when
categorical data is present, else copies out the numeric store. -/
def insert_numeric (st : ColBasedChunk) : Except PErr (List ℚ) :=
  if 0 < st.cat_data.length then .error .InvalidState
  else .ok st.number_data

/-- The numeric-typed `get<T, true>(i)`: reads `number_data_.get<T>(i)`
directly, with no categorical-mode check; the widening vector's bounds
behavior is modelled from the spec (section 4.1: `OutOfRange` when the index
is at or beyond the element count). -/
def get_numeric (st : ColBasedChunk) (i : ℕ) : Except PErr ℚ :=
  if h : i < st.number_data.length then .ok (st.number_data.get ⟨i, h⟩)
  else .error .OutOfRange

/-- Decoding entry `i` of the categorical store: the interned text at the
stored code, via the ordered decode list `cat_keys_`. -/
def decode (st : ColBasedChunk) (i : ℕ) : Option String :=
  (st.cat_data[i]?).bind fun c => st.cat_keys[c]?

end ColBasedChunk

/-- The mutual-exclusion ("mode") invariant of the spec: at most one of the
numeric store and the categorical code store is non-empty. -/
def ModeInv (st : ColBasedChunk) : Prop :=
  st.number_data = [] ∨ st.cat_data = []

/-- Dictionary well-formedness: `cat_ids_` and `cat_keys_` have the same
size, every recorded binding decodes through `cat_keys_` to its key, and
every code stored in `cat_data_` is a valid index into `cat_keys_`. -/
def WF (st : ColBasedChunk) : Prop :=
  st.cat_ids.length = st.cat_keys.length ∧
  (∀ k id, findId k st.cat_ids = some id → st.cat_keys[id]? = some k) ∧
  (∀ c ∈ st.cat_data, c < st.cat_keys.length)

/-- A purely numeric input event: one `process_float` or `process_integer`
call. -/
inductive NumOp where
  | flt (q : ℚ)
  | int (z : ℤ)

/-- The numeric value carried by a numeric input event. -/
def NumOp.value : NumOp → ℚ
  | .flt q => q
  | .int z => (z : ℚ)

/-- Apply a numeric input event to a chunk. -/
def NumOp.apply (st : ColBasedChunk) : NumOp → ColBasedChunk
  | .flt q => st.process_float q
  | .int z => st.process_integer z

/-- Run a sequence of numeric input events. -/
def runNum (st : ColBasedChunk) (ops : List NumOp) : ColBasedChunk :=
  ops.foldl NumOp.apply st

/-- One input event on the tokenizer boundary: `process_float`,
`process_integer` or `process_categorical`. -/
inductive ProcOp where
  | flt (q : ℚ)
  | int (z : ℤ)
  | cat (s : String)

/-- Apply an input event to a chunk. -/
def ProcOp.apply (st : ColBasedChunk) : ProcOp → ColBasedChunk
  | .flt q => st.process_float q
  | .int z => st.process_integer z
  | .cat s => st.process_categorical s

/-- Run a sequence of input events. -/
def runProc (st : ColBasedChunk) (ops : List ProcOp) : ColBasedChunk :=
  ops.foldl ProcOp.apply st

/-- Intern a list of texts in order, collecting the assigned codes. -/
def internList (st : ColBasedChunk) : List String → List ℕ × ColBasedChunk
  | [] => ([], st)
  | t :: ts =>
      let r := st.get_string_id t
      let rest := internList r.2 ts
      (r.1 :: rest.1, rest.2)

/-! ### Dictionary lemmas -/

theorem lt_of_getElem?_some {α : Type} {l : List α} {i : ℕ} {a : α}
    (h : l[i]? = some a) : i < l.length := by
  by_contra hge
  rw [List.getElem?_eq_none (Nat.le_of_not_lt hge)] at h
  exact Option.noConfusion h

theorem mem_of_getElem?_some {α : Type} {l : List α} {i : ℕ} {a : α}
    (h : l[i]? = some a) : a ∈ l := by
  induction l generalizing i with
  | nil => simp at h
  | cons x xs ih =>
      cases i with
      | zero =>
          simp only [List.getElem?_cons_zero, Option.some.injEq] at h
          simp [h]
      | succ j =>
          simp only [List.getElem?_cons_succ] at h
          exact List.mem_cons_of_mem _ (ih h)

theorem findId_append_of_some {k : String} {l1 : List (String × ℕ)} {i : ℕ}
    (l2 : List (String × ℕ)) (h : findId k l1 = some i) :
    findId k (l1 ++ l2) = some i := by
  induction l1 with
  | nil => simp [findId] at h
  | cons p rest ih =>
      by_cases hk : k = p.1
      · simpa [findId, hk] using by simpa [findId, hk] using h
      · simp only [findId, if_neg hk] at h ⊢
        exact ih h

theorem findId_append_of_none {k : String} {l1 : List (String × ℕ)}
    (l2 : List (String × ℕ)) (h : findId k l1 = none) :
    findId k (l1 ++ l2) = findId k l2 := by
  induction l1 with
  | nil => simp [findId]
  | cons p rest ih =>
      by_cases hk : k = p.1
      · simp [findId, hk] at h
      · simp only [findId, if_neg hk] at h ⊢
        exact ih h

theorem gsi_found_eq {st : ColBasedChunk} {k : String} {i : ℕ}
    (h : findId k st.cat_ids = some i) : st.get_string_id k = (i, st) := by
  unfold ColBasedChunk.get_string_id
  rw [h]

theorem gsi_new_eq {st : ColBasedChunk} {k : String}
    (h : findId k st.cat_ids = none) :
    st.get_string_id k =
      (st.cat_ids.length,
        { st with
          cat_ids := st.cat_ids ++ [(k, st.cat_ids.length)],
          cat_keys := st.cat_keys ++ [k] }) := by
  unfold ColBasedChunk.get_string_id
  rw [h]

theorem gsi_number_data (st : ColBasedChunk) (k : String) :
    (st.get_string_id k).2.number_data = st.number_data := by
  cases h : findId k st.cat_ids
  · rw [gsi_new_eq h]
  · rw [gsi_found_eq h]

theorem gsi_cat_data (st : ColBasedChunk) (k : String) :
    (st.get_string_id k).2.cat_data = st.cat_data := by
  cases h : findId k st.cat_ids
  · rw [gsi_new_eq h]
  · rw [gsi_found_eq h]

theorem gsi_keys_mono (st : ColBasedChunk) (k : String) :
    ∃ l, (st.get_string_id k).2.cat_keys = st.cat_keys ++ l := by
  cases h : findId k st.cat_ids
  · exact ⟨[k], by rw [gsi_new_eq h]⟩
  · exact ⟨[], by rw [gsi_found_eq h]; simp⟩

theorem gsi_found (st : ColBasedChunk) (k : String) :
    findId k (st.get_string_id k).2.cat_ids = some (st.get_string_id k).1 := by
  cases h : findId k st.cat_ids
  · rw [gsi_new_eq h]
    simpa [findId] using findId_append_of_none [(k, st.cat_ids.length)] h
  · rw [gsi_found_eq h]
    exact h

theorem gsi_preserves_found {st : ColBasedChunk} {k : String} {i : ℕ}
    (h : findId k st.cat_ids = some i) (t : String) :
    findId k (st.get_string_id t).2.cat_ids = some i := by
  cases h2 : findId t st.cat_ids
  · rw [gsi_new_eq h2]
    exact findId_append_of_some _ h
  · rw [gsi_found_eq h2]
    exact h

theorem wf_empty : WF ColBasedChunk.empty := by
  refine ⟨rfl, ?_, ?_⟩
  · intro k id h
    simp [findId, ColBasedChunk.empty] at h
  · intro c hc
    simp [ColBasedChunk.empty] at hc

theorem wf_get_string_id {st : ColBasedChunk} (w : WF st) (k : String) :
    WF (st.get_string_id k).2 ∧
      (st.get_string_id k).2.cat_keys[(st.get_string_id k).1]? = some k := by
  obtain ⟨wlen, wfind, wcode⟩ := w
  cases h : findId k st.cat_ids
  case some id =>
    rw [gsi_found_eq h]
    exact ⟨⟨wlen, wfind, wcode⟩, wfind k id h⟩
  case none =>
    rw [gsi_new_eq h]
    constructor
    · refine ⟨by simp [wlen], ?_, ?_⟩
      · intro k' id' hfind
        cases h2 : findId k' st.cat_ids
        case some j =>
          rw [findId_append_of_some _ h2] at hfind
          cases hfind
          have hk' := wfind k' id' h2
          have hlt : id' < st.cat_keys.length := by
            by_contra hge
            rw [List.getElem?_eq_none (Nat.le_of_not_lt hge)] at hk'
            exact Option.noConfusion hk'
          simpa [List.getElem?_append_left hlt] using hk'
        case none =>
          rw [findId_append_of_none _ h2] at hfind
          simp only [findId] at hfind
          by_cases hk : k' = k
          · simp only [if_pos hk] at hfind
            cases hfind
            subst hk
            rw [wlen]
            simp
          · simp [if_neg hk] at hfind
      · intro c hc
        have := wcode c hc
        simp only [List.length_append, List.length_cons, List.length_nil]
        omega
    · simp only [wlen]
      simp

theorem push_cat_number (st : ColBasedChunk) (k : String) :
    (st.push_cat k).number_data = st.number_data := by
  simp [ColBasedChunk.push_cat, gsi_number_data]

theorem push_cat_cat_data (st : ColBasedChunk) (k : String) :
    (st.push_cat k).cat_data = st.cat_data ++ [(st.get_string_id k).1] := by
  simp [ColBasedChunk.push_cat, gsi_cat_data]

theorem push_cat_keys (st : ColBasedChunk) (k : String) :
    (st.push_cat k).cat_keys = (st.get_string_id k).2.cat_keys := rfl

theorem push_cat_keys_mono (st : ColBasedChunk) (k : String) :
    ∃ l, (st.push_cat k).cat_keys = st.cat_keys ++ l := by
  rw [push_cat_keys]
  exact gsi_keys_mono st k

theorem wf_push_cat {st : ColBasedChunk} (w : WF st) (k : String) :
    WF (st.push_cat k) := by
  obtain ⟨w', hkey⟩ := wf_get_string_id w k
  obtain ⟨wlen, wfind, wcode⟩ := w'
  refine ⟨wlen, wfind, ?_⟩
  intro c hc
  rw [push_cat_cat_data] at hc
  show c < (st.get_string_id k).2.cat_keys.length
  rcases List.mem_append.1 hc with hc | hc
  · exact wcode c (by rw [gsi_cat_data]; exact hc)
  · have hceq : c = (st.get_string_id k).1 := by simpa using hc
    subst hceq
    exact lt_of_getElem?_some hkey

theorem decode_set_number (st : ColBasedChunk) (l : List ℚ) (i : ℕ) :
    ({ st with number_data := l } : ColBasedChunk).decode i = st.decode i := rfl

theorem decode_push_cat_old {st : ColBasedChunk} (w : WF st) (k : String) {i : ℕ}
    (h : i < st.cat_data.length) : (st.push_cat k).decode i = st.decode i := by
  unfold ColBasedChunk.decode
  rw [push_cat_cat_data, List.getElem?_append_left h]
  cases hc : st.cat_data[i]?
  case none => rfl
  case some c =>
    have hcl : c < st.cat_keys.length := w.2.2 c (mem_of_getElem?_some hc)
    obtain ⟨l, hl⟩ := push_cat_keys_mono st k
    simp only [Option.some_bind]
    rw [hl, List.getElem?_append_left hcl]

theorem decode_push_cat_new {st : ColBasedChunk} (w : WF st) (k : String) :
    (st.push_cat k).decode st.cat_data.length = some k := by
  unfold ColBasedChunk.decode
  rw [push_cat_cat_data]
  rw [List.getElem?_concat_length]
  exact (wf_get_string_id w k).2

/-! ### The conversion fold -/

/-- The loop body of `convert_to_string` as a fold: intern each text of the
list in order and append its code to the categorical store. -/
def internAppend (st : ColBasedChunk) (ts : List String) : ColBasedChunk :=
  ts.foldl ColBasedChunk.push_cat st

theorem internAppend_nil (st : ColBasedChunk) : internAppend st [] = st := rfl

theorem internAppend_cons (st : ColBasedChunk) (t : String) (ts : List String) :
    internAppend st (t :: ts) = internAppend (st.push_cat t) ts := rfl

theorem convert_to_string_eq (st : ColBasedChunk) :
    st.convert_to_string =
      if 0 < st.number_data.length then
        { internAppend st (st.number_data.map to_string_float) with number_data := [] }
      else st := rfl

theorem internAppend_number (st : ColBasedChunk) (ts : List String) :
    (internAppend st ts).number_data = st.number_data := by
  induction ts generalizing st with
  | nil => rfl
  | cons t ts ih => rw [internAppend_cons, ih, push_cat_number]

theorem internAppend_cat_len (st : ColBasedChunk) (ts : List String) :
    (internAppend st ts).cat_data.length = st.cat_data.length + ts.length := by
  induction ts generalizing st with
  | nil => rfl
  | cons t ts ih =>
      rw [internAppend_cons, ih, push_cat_cat_data]
      simp only [List.length_append, List.length_cons, List.length_nil]
      omega

theorem internAppend_keys_mono (st : ColBasedChunk) (ts : List String) :
    ∃ l, (internAppend st ts).cat_keys = st.cat_keys ++ l := by
  induction ts generalizing st with
  | nil => exact ⟨[], by simp [internAppend_nil]⟩
  | cons t ts ih =>
      rw [internAppend_cons]
      obtain ⟨l1, hl1⟩ := ih (st.push_cat t)
      obtain ⟨l2, hl2⟩ := push_cat_keys_mono st t
      exact ⟨l2 ++ l1, by rw [hl1, hl2, List.append_assoc]⟩

theorem wf_internAppend {st : ColBasedChunk} (w : WF st) (ts : List String) :
    WF (internAppend st ts) := by
  induction ts generalizing st with
  | nil => exact w
  | cons t ts ih => exact ih (wf_push_cat w t)

theorem internAppend_decode_old {st : ColBasedChunk} (w : WF st) (ts : List String)
    {i : ℕ} (h : i < st.cat_data.length) :
    (internAppend st ts).decode i = st.decode i := by
  induction ts generalizing st with
  | nil => rfl
  | cons t ts ih =>
      rw [internAppend_cons]
      have h1 : i < (st.push_cat t).cat_data.length := by
        rw [push_cat_cat_data]
        simp only [List.length_append, List.length_cons, List.length_nil]
        omega
      rw [ih (wf_push_cat w t) h1, decode_push_cat_old w t h]

theorem internAppend_decode_new {st : ColBasedChunk} (w : WF st) (ts : List String)
    (i : ℕ) (h : i < ts.length) :
    (internAppend st ts).decode (st.cat_data.length + i) =
      some (ts.get ⟨i, h⟩) := by
  induction ts generalizing st i with
  | nil => simp at h
  | cons t ts ih =>
      rw [internAppend_cons]
      cases i with
      | zero =>
          have hlt : st.cat_data.length < (st.push_cat t).cat_data.length := by
            rw [push_cat_cat_data]
            simp
          rw [Nat.add_zero,
            internAppend_decode_old (wf_push_cat w t) ts hlt,
            decode_push_cat_new w t]
          rfl
      | succ j =>
          have hpos : (st.push_cat t).cat_data.length = st.cat_data.length + 1 := by
            rw [push_cat_cat_data]; simp
          have harith : st.cat_data.length + (j + 1) =
              (st.push_cat t).cat_data.length + j := by omega
          rw [harith, ih (wf_push_cat w t) j (by simpa using h)]
          rfl

theorem convert_number (st : ColBasedChunk) :
    (st.convert_to_string).number_data = [] := by
  rw [convert_to_string_eq]
  by_cases h : 0 < st.number_data.length
  · rw [if_pos h]
  · rw [if_neg h]
    exact List.length_eq_zero.mp (by omega)

theorem convert_cat_data (st : ColBasedChunk) :
    (st.convert_to_string).cat_data =
      (internAppend st (st.number_data.map to_string_float)).cat_data := by
  rw [convert_to_string_eq]
  by_cases h : 0 < st.number_data.length
  · rw [if_pos h]
  · rw [if_neg h]
    have : st.number_data = [] := List.length_eq_zero.mp (by omega)
    rw [this]
    rfl

theorem convert_cat_len (st : ColBasedChunk) :
    (st.convert_to_string).cat_data.length =
      st.cat_data.length + st.number_data.length := by
  rw [convert_cat_data, internAppend_cat_len]
  simp

theorem wf_convert {st : ColBasedChunk} (w : WF st) : WF st.convert_to_string := by
  rw [convert_to_string_eq]
  by_cases h : 0 < st.number_data.length
  · rw [if_pos h]
    exact wf_internAppend w _
  · rw [if_neg h]
    exact w

theorem convert_decode (st : ColBasedChunk) (w : WF st) (i : ℕ)
    (h : i < st.number_data.length) :
    (st.convert_to_string).decode (st.cat_data.length + i) =
      some (to_string_float (st.number_data.get ⟨i, h⟩)) := by
  rw [convert_to_string_eq, if_pos (by omega : 0 < st.number_data.length),
    decode_set_number]
  have hm : i < (st.number_data.map to_string_float).length := by simpa using h
  rw [internAppend_decode_new w (st.number_data.map to_string_float) i hm]
  congr 1
  exact List.get_map ..

/-! ### Numeric-only runs -/

theorem apply_numOp_numeric {st : ColBasedChunk} (h : st.cat_data = [])
    (op : NumOp) :
    NumOp.apply st op = { st with number_data := st.number_data ++ [op.value] } := by
  cases op <;>
    simp [NumOp.apply, NumOp.value, ColBasedChunk.process_float,
      ColBasedChunk.process_integer, h]

theorem runNum_cons (st : ColBasedChunk) (op : NumOp) (ops : List NumOp) :
    runNum st (op :: ops) = runNum (NumOp.apply st op) ops := rfl

theorem runNum_numeric (st : ColBasedChunk) (h : st.cat_data = [])
    (hi : st.cat_ids = []) (hk : st.cat_keys = []) (ops : List NumOp) :
    (runNum st ops).cat_data = [] ∧ (runNum st ops).cat_ids = [] ∧
      (runNum st ops).cat_keys = [] ∧
      (runNum st ops).number_data = st.number_data ++ ops.map NumOp.value := by
  induction ops generalizing st with
  | nil => exact ⟨h, hi, hk, by simp [runNum]⟩
  | cons op ops ih =>
      rw [runNum_cons, apply_numOp_numeric h]
      obtain ⟨a, b, c, d⟩ :=
        ih { st with number_data := st.number_data ++ [op.value] } h hi hk
      refine ⟨a, b, c, ?_⟩
      rw [d]
      simp

theorem runNum_empty_spec (ops : List NumOp) :
    (runNum ColBasedChunk.empty ops).cat_data = [] ∧
      (runNum ColBasedChunk.empty ops).cat_ids = [] ∧
      (runNum ColBasedChunk.empty ops).cat_keys = [] ∧
      (runNum ColBasedChunk.empty ops).number_data = ops.map NumOp.value := by
  have h := runNum_numeric ColBasedChunk.empty rfl rfl rfl ops
  simpa [ColBasedChunk.empty] using h

theorem wf_runNum_empty (ops : List NumOp) : WF (runNum ColBasedChunk.empty ops) := by
  obtain ⟨hc, hi, hk, _⟩ := runNum_empty_spec ops
  refine ⟨by rw [hi, hk] <;> rfl, ?_, ?_⟩
  · intro k id hfind
    rw [hi] at hfind
    simp [findId] at hfind
  · intro c hmem
    rw [hc] at hmem
    simp at hmem

/-! ### Claim theorems -/

/-- Claim C1: for every accumulator holding only numeric data (any sequence
of `process_integer` and `process_float` calls on a fresh chunk),
`convert_to_string` empties the numeric store and produces exactly one
categorical entry per stored value, in the original insertion order, each
decoding to the canonical text rendering of that value. -/
theorem paratext_C1 (ops : List NumOp) :
    ((runNum ColBasedChunk.empty ops).convert_to_string).number_data = [] ∧
      ((runNum ColBasedChunk.empty ops).convert_to_string).cat_data.length =
        ops.length ∧
      ∀ (i : ℕ) (h : i < ops.length),
        ((runNum ColBasedChunk.empty ops).convert_to_string).decode i =
          some (to_string_float (NumOp.value (ops.get ⟨i, h⟩))) := by
  obtain ⟨hc, hi, hk, hn⟩ := runNum_empty_spec ops
  refine ⟨convert_number _, ?_, ?_⟩
  · rw [convert_cat_len, hc, hn]
    simp
  · intro i h
    have hw := wf_runNum_empty ops
    have hlen : i < (runNum ColBasedChunk.empty ops).number_data.length := by
      rw [hn]; simpa using h
    have := convert_decode (runNum ColBasedChunk.empty ops) hw i hlen
    rw [hc] at this
    simp only [List.length_nil, Nat.zero_add] at this
    rw [this]
    congr 1
    have : (runNum ColBasedChunk.empty ops).number_data.get ⟨i, hlen⟩ =
        NumOp.value (ops.get ⟨i, h⟩) := by
      have hg := List.get_of_eq hn ⟨i, hlen⟩
      rw [hg]
      exact List.get_map ..
    rw [this]

/-- Witness for C1 at the concrete input `[process_integer 1, process_float 2]`. -/
theorem paratext_C1_witness :
    ((runNum ColBasedChunk.empty [NumOp.int 1, NumOp.flt 2]).convert_to_string).decode 0 =
      some "1.000000" := by
  have h := (paratext_C1 [NumOp.int 1, NumOp.flt 2]).2.2 0 (by decide)
  exact h.trans (by decide)

/-- Claim C2: in numeric mode with at least one stored value, an empty
categorical text appends the integer 0 to the numeric store; the column
stays numeric, its size grows by one, and the categorical store stays
empty. -/
theorem paratext_C2 (st : ColBasedChunk) (hc : st.cat_data = [])
    (hn : st.number_data ≠ []) :
    (st.process_categorical "").get_semantics = Semantics.NUMERIC ∧
      (st.process_categorical "").size = st.size + 1 ∧
      (st.process_categorical "").number_data = st.number_data ++ [(0 : ℚ)] ∧
      (st.process_categorical "").cat_data = [] := by
  have hn' : 0 < st.number_data.length := List.length_pos.mpr hn
  unfold ColBasedChunk.process_categorical
  rw [if_pos hn', if_pos rfl]
  refine ⟨?_, ?_, rfl, hc⟩
  · unfold ColBasedChunk.get_semantics
    simp [hc]
  · unfold ColBasedChunk.size
    simp [hc]

/-- Witness for C2 at the concrete state holding the numeric data `[1, 2]`. -/
theorem paratext_C2_witness :
    (({ number_data := [1, 2] } : ColBasedChunk).process_categorical "").get_semantics =
        Semantics.NUMERIC ∧
      (({ number_data := [1, 2] } : ColBasedChunk).process_categorical "").size = 3 ∧
      (({ number_data := [1, 2] } : ColBasedChunk).process_categorical "").number_data =
        [1, 2, 0] := by
  have h := paratext_C2 { number_data := [1, 2] } rfl (by decide)
  exact ⟨h.1, h.2.1.trans (by decide), h.2.2.1.trans (by decide)⟩

/-- The concrete trace of claim C3: numeric data 1 and 2, then an empty
categorical text, then the categorical text "x". -/
def c3state : ColBasedChunk :=
  (((ColBasedChunk.empty.process_integer 1).process_integer 2).process_categorical
      "").process_categorical "x"

/-- Counterexample to claim C3 as stated: after the trace `[1, 2]`, `""`,
`"x"`, the first categorical entry decodes to `"1.000000"` (the
`std::to_string` rendering of the value read back as `float`), not `"1"`. -/
theorem paratext_C3_counterexample :
    c3state.decode 0 = some "1.000000" ∧ ¬ c3state.decode 0 = some "1" := by
  decide

/-- Claim C3 as amended: the three stored numbers are converted to their
six-fractional-digit float renderings `"1.000000"`, `"2.000000"`,
`"0.000000"` (not `"1"`, `"2"`, `"0"`), `"x"` is interned, and the column is
categorical with exactly 4 entries decoding in order. -/
theorem paratext_C3_amended :
    c3state.get_semantics = Semantics.STRINGISH ∧ c3state.size = 4 ∧
      c3state.decode 0 = some "1.000000" ∧ c3state.decode 1 = some "2.000000" ∧
      c3state.decode 2 = some "0.000000" ∧ c3state.decode 3 = some "x" := by
  decide

/-! ### Mode invariant -/

theorem modeInv_push_cat {st : ColBasedChunk} (hn : st.number_data = [])
    (k : String) : ModeInv (st.push_cat k) :=
  Or.inl (by rw [push_cat_number]; exact hn)

theorem modeInv_process_categorical {st : ColBasedChunk} (h : ModeInv st)
    (s : String) : ModeInv (st.process_categorical s) := by
  unfold ColBasedChunk.process_categorical
  by_cases hn : 0 < st.number_data.length
  · rw [if_pos hn]
    have hcat : st.cat_data = [] := by
      rcases h with h | h
      · rw [h] at hn; simp at hn
      · exact h
    by_cases hs : s = ""
    · rw [if_pos hs]
      exact Or.inr hcat
    · rw [if_neg hs]
      exact Or.inl (by rw [push_cat_number, convert_number])
  · rw [if_neg hn]
    exact Or.inl (by rw [push_cat_number]; exact List.length_eq_zero.mp (by omega))

theorem modeInv_process_float {st : ColBasedChunk} (h : ModeInv st) (q : ℚ) :
    ModeInv (st.process_float q) := by
  unfold ColBasedChunk.process_float
  by_cases hc : 0 < st.cat_data.length
  · rw [if_pos hc]
    exact modeInv_process_categorical h _
  · rw [if_neg hc]
    exact Or.inr (show st.cat_data = [] from List.length_eq_zero.mp (by omega))

theorem modeInv_process_integer {st : ColBasedChunk} (h : ModeInv st) (z : ℤ) :
    ModeInv (st.process_integer z) := by
  unfold ColBasedChunk.process_integer
  by_cases hc : 0 < st.cat_data.length
  · rw [if_pos hc]
    exact modeInv_process_categorical h _
  · rw [if_neg hc]
    exact Or.inr (show st.cat_data = [] from List.length_eq_zero.mp (by omega))

theorem modeInv_convert (st : ColBasedChunk) : ModeInv st.convert_to_string :=
  Or.inl (convert_number st)

theorem modeInv_clear (st : ColBasedChunk) : ModeInv st.clear := Or.inl rfl

/-- States reachable from a fresh chunk through the public mutators, with
`add_cat_data` restricted to its documented categorical-mode use (only when
the numeric store is empty). -/
inductive Reach : ColBasedChunk → Prop where
  | init : Reach ColBasedChunk.empty
  | flt (q : ℚ) {st : ColBasedChunk} (h : Reach st) : Reach (st.process_float q)
  | int (z : ℤ) {st : ColBasedChunk} (h : Reach st) : Reach (st.process_integer z)
  | cat (s : String) {st : ColBasedChunk} (h : Reach st) :
      Reach (st.process_categorical s)
  | conv {st : ColBasedChunk} (h : Reach st) : Reach st.convert_to_string
  | clr {st : ColBasedChunk} (h : Reach st) : Reach st.clear
  | addcat (s : String) {st : ColBasedChunk} (h : Reach st)
      (hn : st.number_data = []) : Reach (st.add_cat_data s)

/-- Counterexample to claim C4 as stated: the sequence `process_integer 1`
then `add_cat_data "x"` (both among the operations the claim quantifies
over) leaves BOTH the numeric store and the categorical store non-empty,
because `add_cat_data` bypasses the numeric-mode check. -/
theorem paratext_C4_counterexample :
    ¬ ModeInv ((ColBasedChunk.empty.process_integer 1).add_cat_data "x") := by
  unfold ModeInv
  decide

/-- Claim C4 as amended: the mutual-exclusion invariant (at most one of the
numeric store and the categorical store non-empty) holds in every state
reachable by `process_float`, `process_integer`, `process_categorical`,
`convert_to_string` and `clear`, with `add_cat_data` permitted only in its
documented categorical-mode use, i.e. when the numeric store is empty. -/
theorem paratext_C4_amended (st : ColBasedChunk) (h : Reach st) : ModeInv st := by
  induction h with
  | init => exact Or.inl rfl
  | flt q h ih => exact modeInv_process_float ih q
  | int z h ih => exact modeInv_process_integer ih z
  | cat s h ih => exact modeInv_process_categorical ih s
  | conv h ih => exact modeInv_convert _
  | clr h ih => exact modeInv_clear _
  | addcat s h hn ih => exact modeInv_push_cat hn s

/-- Witness for the amended C4 on the concrete reachable state built by
`process_integer 1`, `process_categorical "x"`, `add_cat_data "y"`. -/
theorem paratext_C4_witness :
    ModeInv (((ColBasedChunk.empty.process_integer 1).process_categorical
        "x").add_cat_data "y") :=
  paratext_C4_amended _
    (Reach.addcat "y" (Reach.cat "x" (Reach.int 1 Reach.init)) (by decide))

/-! ### Categorical mode is absorbing -/

theorem catMode_apply {st : ColBasedChunk} (hc : 0 < st.cat_data.length)
    (hn : st.number_data = []) (op : ProcOp) :
    0 < (ProcOp.apply st op).cat_data.length ∧
      (ProcOp.apply st op).number_data = [] := by
  have key : ∀ s, 0 < (st.process_categorical s).cat_data.length ∧
      (st.process_categorical s).number_data = [] := by
    intro s
    unfold ColBasedChunk.process_categorical
    rw [if_neg (by rw [hn]; simp)]
    constructor
    · rw [push_cat_cat_data]; simp
    · rw [push_cat_number]; exact hn
  cases op with
  | flt q =>
      show 0 < (st.process_float q).cat_data.length ∧
        (st.process_float q).number_data = []
      unfold ColBasedChunk.process_float
      rw [if_pos hc]
      exact key _
  | int z =>
      show 0 < (st.process_integer z).cat_data.length ∧
        (st.process_integer z).number_data = []
      unfold ColBasedChunk.process_integer
      rw [if_pos hc]
      exact key _
  | cat s => exact key s

theorem runProc_cons (st : ColBasedChunk) (op : ProcOp) (ops : List ProcOp) :
    runProc st (op :: ops) = runProc (ProcOp.apply st op) ops := rfl

theorem runProc_catMode {st : ColBasedChunk} (hc : 0 < st.cat_data.length)
    (hn : st.number_data = []) (ops : List ProcOp) :
    0 < (runProc st ops).cat_data.length ∧
      (runProc st ops).number_data = [] := by
  induction ops generalizing st with
  | nil => exact ⟨hc, hn⟩
  | cons op ops ih =>
      rw [runProc_cons]
      obtain ⟨h1, h2⟩ := catMode_apply hc hn op
      exact ih h1 h2

/-- Claim C5: once `convert_to_string` runs on an accumulator holding
numeric data, `get_semantics` reports `STRINGISH` (never `NUMERIC` again)
after any further sequence of `process_float`, `process_integer` and
`process_categorical` calls; moreover, in the resulting categorical mode
every float or integer input is rendered to text and its interned code is
appended to the categorical store. -/
theorem paratext_C5 (st : ColBasedChunk) (h : st.number_data ≠ []) :
    (∀ ops : List ProcOp,
        (runProc st.convert_to_string ops).get_semantics = Semantics.STRINGISH) ∧
      ∀ stc : ColBasedChunk, 0 < stc.cat_data.length → stc.number_data = [] →
        (∀ q : ℚ, (stc.process_float q).cat_data =
            stc.cat_data ++ [(stc.get_string_id (to_string_float q)).1]) ∧
        (∀ z : ℤ, (stc.process_integer z).cat_data =
            stc.cat_data ++ [(stc.get_string_id (to_string_int z)).1]) := by
  have hn' : 0 < st.number_data.length := List.length_pos.mpr h
  have hc : 0 < (st.convert_to_string).cat_data.length := by
    rw [convert_cat_len]; omega
  have hnn : (st.convert_to_string).number_data = [] := convert_number st
  constructor
  · intro ops
    unfold ColBasedChunk.get_semantics
    rw [if_pos (runProc_catMode hc hnn ops).1]
  · intro stc hcc hnc
    constructor
    · intro q
      unfold ColBasedChunk.process_float
      rw [if_pos hcc]
      unfold ColBasedChunk.process_categorical
      rw [if_neg (by rw [hnc]; simp)]
      exact push_cat_cat_data stc _
    · intro z
      unfold ColBasedChunk.process_integer
      rw [if_pos hcc]
      unfold ColBasedChunk.process_categorical
      rw [if_neg (by rw [hnc]; simp)]
      exact push_cat_cat_data stc _

/-- Witness for C5 at the concrete state holding the numeric data `[1]`,
with the empty continuation of input events. -/
theorem paratext_C5_witness :
    (runProc ({ number_data := [1] } : ColBasedChunk).convert_to_string
        []).get_semantics = Semantics.STRINGISH :=
  (paratext_C5 { number_data := [1] } (by decide)).1 []

/-! ### Size growth -/

theorem size_push_cat (st : ColBasedChunk) (k : String) :
    (st.push_cat k).size = st.cat_data.length + 1 := by
  unfold ColBasedChunk.size
  rw [push_cat_cat_data, if_pos (by simp)]
  simp

theorem size_append_number (st : ColBasedChunk) (q : ℚ)
    (hc : ¬ 0 < st.cat_data.length) :
    ({ st with number_data := st.number_data ++ [q] } : ColBasedChunk).size =
      st.size + 1 := by
  simp [ColBasedChunk.size, hc]

theorem size_of_number_nil {st : ColBasedChunk} (hn : st.number_data = []) :
    st.size = st.cat_data.length := by
  unfold ColBasedChunk.size
  by_cases hc : 0 < st.cat_data.length
  · rw [if_pos hc]
  · rw [if_neg hc, hn]
    simp only [List.length_nil]
    omega

/-- Claim C10: starting from any state satisfying the mode invariant, every
single `process_float`, `process_integer` or `process_categorical` call
increases `size()` by exactly one — in numeric as in categorical mode,
including the empty-text-as-zero case and the converting call. -/
theorem paratext_C10 (st : ColBasedChunk) (op : ProcOp) (h : ModeInv st) :
    (ProcOp.apply st op).size = st.size + 1 := by
  cases op with
  | flt q =>
      show (st.process_float q).size = st.size + 1
      unfold ColBasedChunk.process_float
      by_cases hc : 0 < st.cat_data.length
      · rw [if_pos hc]
        have hn : st.number_data = [] := by
          rcases h with h | h
          · exact h
          · rw [h] at hc; simp at hc
        unfold ColBasedChunk.process_categorical
        rw [if_neg (by rw [hn]; simp), size_push_cat, size_of_number_nil hn]
      · rw [if_neg hc]
        exact size_append_number st q hc
  | int z =>
      show (st.process_integer z).size = st.size + 1
      unfold ColBasedChunk.process_integer
      by_cases hc : 0 < st.cat_data.length
      · rw [if_pos hc]
        have hn : st.number_data = [] := by
          rcases h with h | h
          · exact h
          · rw [h] at hc; simp at hc
        unfold ColBasedChunk.process_categorical
        rw [if_neg (by rw [hn]; simp), size_push_cat, size_of_number_nil hn]
      · rw [if_neg hc]
        exact size_append_number st _ hc
  | cat s =>
      show (st.process_categorical s).size = st.size + 1
      unfold ColBasedChunk.process_categorical
      by_cases hn : 0 < st.number_data.length
      · rw [if_pos hn]
        have hcat : st.cat_data = [] := by
          rcases h with h | h
          · rw [h] at hn; simp at hn
          · exact h
        by_cases hs : s = ""
        · rw [if_pos hs]
          exact size_append_number st 0 (by rw [hcat]; simp)
        · rw [if_neg hs, size_push_cat, convert_cat_len]
          unfold ColBasedChunk.size
          rw [if_neg (by rw [hcat]; simp), hcat]
          simp
      · rw [if_neg hn, size_push_cat]
        have hn0 : st.number_data = [] := List.length_eq_zero.mp (by omega)
        rw [size_of_number_nil hn0]

/-- Witness for C10: one `process_integer` call on a fresh chunk grows the
size by one. -/
theorem paratext_C10_witness :
    (ProcOp.apply ColBasedChunk.empty (ProcOp.int 5)).size =
      ColBasedChunk.empty.size + 1 :=
  paratext_C10 ColBasedChunk.empty (ProcOp.int 5) (Or.inl rfl)

/-! ### Interning -/

theorem internList_cons (st : ColBasedChunk) (t : String) (ts : List String) :
    internList st (t :: ts) =
      ((st.get_string_id t).1 :: (internList (st.get_string_id t).2 ts).1,
        (internList (st.get_string_id t).2 ts).2) := rfl

theorem internList_preserves_found {st : ColBasedChunk} {k : String} {i : ℕ}
    (h : findId k st.cat_ids = some i) (ts : List String) :
    findId k (internList st ts).2.cat_ids = some i := by
  induction ts generalizing st with
  | nil => exact h
  | cons t ts ih =>
      rw [internList_cons]
      exact ih (gsi_preserves_found h t)

theorem wf_internList {st : ColBasedChunk} (w : WF st) (ts : List String) :
    WF (internList st ts).2 := by
  induction ts generalizing st with
  | nil => exact w
  | cons t ts ih =>
      rw [internList_cons]
      exact ih (wf_get_string_id w t).1

/-- Claim C6: interning is stable and first-seen ordered.  (1) Re-interning a
text after any further interning returns the code of its first interning;
(2) a fresh text receives the next sequential code (the current dictionary
size); (3) interning `["a","b","a","c"]` from a fresh chunk yields the codes
`[0,1,0,2]` and the ordered decode list `["a","b","c"]`; (4) on any run of
interning from a fresh chunk, the decode list indexed by a text's code
recovers that text. -/
theorem paratext_C6 :
    (∀ (st : ColBasedChunk) (t : String) (ts : List String),
        ((internList (st.get_string_id t).2 ts).2.get_string_id t).1 =
          (st.get_string_id t).1) ∧
      (∀ (st : ColBasedChunk) (t : String), findId t st.cat_ids = none →
        (st.get_string_id t).1 = st.cat_ids.length) ∧
      (internList ColBasedChunk.empty ["a", "b", "a", "c"]).1 = [0, 1, 0, 2] ∧
      (internList ColBasedChunk.empty ["a", "b", "a", "c"]).2.cat_keys =
        ["a", "b", "c"] ∧
      ∀ (ts : List String) (k : String) (id : ℕ),
        findId k (internList ColBasedChunk.empty ts).2.cat_ids = some id →
        (internList ColBasedChunk.empty ts).2.cat_keys[id]? = some k := by
  refine ⟨?_, ?_, by decide, by decide, ?_⟩
  · intro st t ts
    have h1 := gsi_found st t
    have h2 := internList_preserves_found h1 ts
    rw [gsi_found_eq h2]
  · intro st t h
    rw [gsi_new_eq h]
  · intro ts k id hfind
    exact (wf_internList wf_empty ts).2.1 k id hfind

/-- Witness for C6: on the run `["a","b","a","c"]`, the code of `"b"` is 1
and the decode list at 1 recovers `"b"`. -/
theorem paratext_C6_witness :
    (internList ColBasedChunk.empty ["a", "b", "a", "c"]).2.cat_keys[1]? =
      some "b" :=
  paratext_C6.2.2.2.2 ["a", "b", "a", "c"] "b" 1 (by decide)

/-! ### Common type resolution -/

/-- Claim C7: the identifier-level common-type resolution is symmetric in
its two arguments, any pairing involving the string identifier yields the
string identifier, and a chunk in categorical mode answers the string
identifier to every common-type query. -/
theorem paratext_C7 :
    (∀ a b : TypeId, ColBasedChunk.common_type_identifier a b =
        ColBasedChunk.common_type_identifier b a) ∧
      (∀ a : TypeId, ColBasedChunk.common_type_identifier a TypeId.string =
          TypeId.string ∧
        ColBasedChunk.common_type_identifier TypeId.string a = TypeId.string) ∧
      ∀ (st : ColBasedChunk) (other : TypeId), 0 < st.cat_data.length →
        st.get_common_type_index other = .string := by
  refine ⟨?_, ?_, ?_⟩
  · intro a b
    cases a <;> cases b <;> rfl
  · intro a
    cases a <;> exact ⟨rfl, rfl⟩
  · intro st other hc
    unfold ColBasedChunk.get_common_type_index
    rw [if_pos (Or.inl hc)]

/-- Witness for C7: a chunk holding one categorical entry answers string to
an int8 query. -/
theorem paratext_C7_witness :
    (ColBasedChunk.empty.add_cat_data "x").get_common_type_index TypeId.int8 =
      TypeId.string :=
  paratext_C7.2.2 (ColBasedChunk.empty.add_cat_data "x") TypeId.int8 (by decide)

/-! ### Numeric reads in categorical mode -/

/-- Counterexample to claim C8 as stated: on a chunk in categorical mode,
the bulk extraction `insert_numeric` does fail with `InvalidState`, but the
single-element numeric-typed `get` does NOT — it reads the (empty) numeric
store directly and fails with `OutOfRange` instead. -/
theorem paratext_C8_counterexample :
    (ColBasedChunk.empty.add_cat_data "x").insert_numeric =
        Except.error PErr.InvalidState ∧
      (ColBasedChunk.empty.add_cat_data "x").get_numeric 0 =
        Except.error PErr.OutOfRange ∧
      ¬ (ColBasedChunk.empty.add_cat_data "x").get_numeric 0 =
        Except.error PErr.InvalidState := by
  refine ⟨rfl, rfl, ?_⟩
  intro h
  have h2 : Except.error (ε := PErr) (α := ℚ) PErr.OutOfRange =
      Except.error PErr.InvalidState := h
  injection h2 with h3
  exact PErr.noConfusion h3

/-- Claim C8 as amended: in categorical mode (with the numeric store empty,
as the mode invariant guarantees), `insert_numeric` fails with
`InvalidState`, while the numeric-typed single-element `get` performs no
mode check and fails with `OutOfRange` at every index, because the numeric
store is empty. -/
theorem paratext_C8_amended (st : ColBasedChunk) (i : ℕ)
    (hc : 0 < st.cat_data.length) (hn : st.number_data = []) :
    st.insert_numeric = Except.error PErr.InvalidState ∧
      st.get_numeric i = Except.error PErr.OutOfRange := by
  constructor
  · unfold ColBasedChunk.insert_numeric
    rw [if_pos hc]
  · unfold ColBasedChunk.get_numeric
    rw [dif_neg (by rw [hn]; simp)]

/-- Witness for the amended C8 on a chunk holding one categorical entry. -/
theorem paratext_C8_witness :
    (ColBasedChunk.empty.add_cat_data "x").insert_numeric =
        Except.error PErr.InvalidState ∧
      (ColBasedChunk.empty.add_cat_data "x").get_numeric 3 =
        Except.error PErr.OutOfRange :=
  paratext_C8_amended (ColBasedChunk.empty.add_cat_data "x") 3 (by decide)
    (by decide)

/-! ### Clear -/

/-- Claim C9: after `clear()` on any state, `size()` is 0 and
`get_semantics()` is numeric, as for a fresh chunk, and the numeric store,
the categorical store, and both halves of the string dictionary are
empty. -/
theorem paratext_C9 (st : ColBasedChunk) :
    st.clear.size = 0 ∧ st.clear.get_semantics = Semantics.NUMERIC ∧
      st.clear.number_data = [] ∧ st.clear.cat_data = [] ∧
      st.clear.cat_ids = [] ∧ st.clear.cat_keys = [] ∧
      ColBasedChunk.empty.size = 0 ∧
      ColBasedChunk.empty.get_semantics = Semantics.NUMERIC := by
  refine ⟨?_, ?_, rfl, rfl, rfl, rfl, by decide, by decide⟩
  · simp [ColBasedChunk.size, ColBasedChunk.clear]
  · simp [ColBasedChunk.get_semantics, ColBasedChunk.clear]

example : to_string_float 1 = "1.000000" := by decide
example : to_string_float ((-3 : ℤ) : ℚ) = "-3.000000" := by decide
example : to_string_float 0 = "0.000000" := by decide
example : to_string_int (-7) = "-7" := by decide
example : (internList ColBasedChunk.empty ["a", "b", "a", "c"]).1 = [0, 1, 0, 2] := by decide
example :
    ((((ColBasedChunk.empty.process_integer 1).process_integer 2).process_categorical
        "").process_categorical "x").cat_keys = ["1.000000", "2.000000", "0.000000", "x"] := by
  decide

end ParaText
